import Mathlib

/-!
Verification development for `orcaslicer_nozzle_variant_maker.py`.

The Python program is shallowly embedded:
* JSON values (`json.load` results) become the inductive `JVal`; Python dicts
  become insertion-ordered association lists (`Dict`) with first-match lookup
  and in-place update, matching Python dict semantics for unique keys.
* The profile directory becomes `FS`, a list of `(filename, content)` pairs in
  directory-iteration order; `content = none` models a file whose text is not
  valid JSON (`json.load` raises `JSONDecodeError` on it).
* `str.replace` becomes `pyRepGo` (left-to-right, non-overlapping, all
  occurrences), `str.split(sep)` becomes `pySplitOnChar`, `str.split()`
  becomes `pySplitWs`, `str.strip()` becomes `pyStrip`.
* `uuid.uuid4().hex` becomes `natToHexPad 32 u` for a 128-bit `u` supplied as
  an explicit argument (one fresh value per generated id, provided by a
  stream `us : Nat → Nat` in the batch loop).
* Python exceptions become `Except PyError`; `NozzleConversionError` is the
  `PyError.nozzle` constructor.
* Numeric sort keys (`float(...)`) are modelled exactly as fractions
  `digits / 10^k`, compared by cross-multiplication; `fracLt_iff_ratCast`
  proves this is the numeric order on the corresponding rationals.
* `list.sort(key=...)` is a stable sort by the key order; it is modelled by
  stable insertion sort (`insSort`), which produces the same list as any
  stable sort for a total transitive comparison.
-/

deriving instance DecidableEq for Except

namespace Orca

/-- JSON values as produced by `json.load`. -/
inductive JVal where
  | jstr (s : String)
  | jnum (n : Int)
  | jbool (b : Bool)
  | jnull
  | jarr (l : List JVal)
  | jobj (kvs : List (String × JVal))

/-- A parsed profile record: a Python dict, insertion ordered. -/
abbrev Dict := List (String × JVal)

/-- Content of a file: `some d` is a file whose JSON parses to `d`,
`none` is a file with invalid JSON text. -/
abbrev Content := Option Dict

/-- A directory state: filenames with contents, in iteration order. -/
abbrev FS := List (String × Content)

/-- Python exception kinds raised by the modelled code.
`nozzle` is the script's own `NozzleConversionError`. -/
inductive PyError where
  | nozzle (msg : String)
  | indexError
  | typeError
  | attributeError
  | valueError
  | keyError
deriving DecidableEq

/-- The three counters of a batch run (`results` dict in `process_profiles`). -/
structure ConversionResult where
  success : Nat
  skipped : Nat
  errors : Nat
deriving DecidableEq

/-- Python `d[k]` / `d.get(k)` lookup: first (i.e. unique) matching key. -/
def dictGet : Dict → String → Option JVal
  | [], _ => none
  | (k', v) :: r, k => if k' = k then some v else dictGet r k

/-- Python `d[k] = v`: replace the value in place, or append a new key. -/
def dictSet : Dict → String → JVal → Dict
  | [], k, v => [(k, v)]
  | (k', v') :: r, k, v => if k' = k then (k, v) :: r else (k', v') :: dictSet r k v

/-- Lookup of a filename in a directory listing (first match). -/
def fsGet : FS → String → Option Content
  | [], _ => none
  | (n, c) :: r, m => if n = m then some c else fsGet r m

/-- Python `path.exists()` over the modelled directory. -/
def fsExists (fs : FS) (n : String) : Bool := (fsGet fs n).isSome

/-- `leadsWith p l` is true iff `p` begins `l` (chars compared one by one). -/
def leadsWith : List Char → List Char → Bool
  | [], _ => true
  | _ :: _, [] => false
  | a :: as, b :: bs => a == b && leadsWith as bs

/-- `hasSub p l` is true iff `p` occurs contiguously inside `l`
(Python `p in l` on strings). -/
def hasSub (pat : List Char) : List Char → Bool
  | [] => pat.isEmpty
  | c :: r => leadsWith pat (c :: r) || hasSub pat r

/-- Core of Python `str.replace(old, new)`: scan left to right; on a match
emit `new` and skip `old.length` characters (`skip` counts characters of a
match still to be consumed); `old = ""` inserts `new` before every character
and at the end, as in Python. -/
def pyRepGo (old new : List Char) : List Char → Nat → List Char
  | [], _ => if old.isEmpty then new else []
  | _ :: rest, k + 1 => pyRepGo old new rest k
  | c :: rest, 0 =>
    if leadsWith old (c :: rest) && !old.isEmpty then
      new ++ pyRepGo old new rest (old.length - 1)
    else if old.isEmpty then
      new ++ c :: pyRepGo old new rest 0
    else
      c :: pyRepGo old new rest 0

/-- Python `s.replace(old, new)`. -/
def pyReplaceS (s old new : String) : String := ⟨pyRepGo old.data new.data s.data 0⟩

/-- Hexadecimal digit characters as produced by Python's `uuid.hex`
(lowercase). -/
def hexDigitChar (m : Nat) : Char :=
  if m < 10 then Char.ofNat (48 + m) else Char.ofNat (87 + m)

/-- Big-endian, zero-padded, fixed-width hexadecimal rendering of a natural
number; `natToHexPad 32 u` for `u < 2^128` is exactly `uuid.UUID(int=u).hex`. -/
def natToHexPad : Nat → Nat → List Char
  | 0, _ => []
  | k + 1, n => natToHexPad k (n / 16) ++ [hexDigitChar (n % 16)]

/-- `uuid.uuid4().hex[:16]` for the random 128-bit value `u`, as characters. -/
def hexSuffixL (u : Nat) : List Char := (natToHexPad 32 u).take 16

/-- The freshly generated profile identifier `f"PFUS{uuid.uuid4().hex[:16]}"`. -/
def newId (u : Nat) : String := "PFUS" ++ ⟨hexSuffixL u⟩

/-- `data.get('name', '')` followed by the `.replace` attribute access:
a missing field defaults to `""`; any non-string raises `AttributeError`. -/
def getNameField (data : Dict) : Except PyError String :=
  match dictGet data "name" with
  | none => .ok ""
  | some (.jstr s) => .ok s
  | some _ => .error .attributeError

/-- One element of the `compatible_printers` comprehension:
`printer.replace(source_size, target_size)`; non-strings raise
`AttributeError`. -/
def replacePrinter (src tgt : String) : JVal → Except PyError JVal
  | .jstr s => .ok (.jstr (pyReplaceS s src tgt))
  | _ => .error .attributeError

/-- `mapE f l` runs `f` over `l` left to right, stopping at the first
exception (a Python list comprehension over a fallible body). -/
def mapE (f : α → Except PyError β) : List α → Except PyError (List β)
  | [] => .ok []
  | a :: r =>
    match f a with
    | .error e => .error e
    | .ok b =>
      match mapE f r with
      | .error e => .error e
      | .ok bs => .ok (b :: bs)

/-- Lines 259–264 of the script: if `compatible_printers` is present, replace
the size substring in each element obtained by iterating the value.
Iterating a Python string yields its characters; iterating a dict yields its
keys; iterating a non-iterable raises `TypeError`. -/
def updatePrinters (m : Dict) (src tgt : String) : Except PyError Dict :=
  match dictGet m "compatible_printers" with
  | none => .ok m
  | some (.jarr l) =>
    match mapE (replacePrinter src tgt) l with
    | .error e => .error e
    | .ok l' => .ok (dictSet m "compatible_printers" (.jarr l'))
  | some (.jstr s) =>
    .ok (dictSet m "compatible_printers"
      (.jarr (s.data.map fun c => .jstr (pyReplaceS ⟨[c]⟩ src tgt))))
  | some (.jobj kvs) =>
    .ok (dictSet m "compatible_printers"
      (.jarr (kvs.map fun kv => .jstr (pyReplaceS kv.1 src tgt))))
  | some _ => .error .typeError

/-- Line 267 of the script, `data.get('filament_settings_id', [''])[0]`:
indexing an empty list or empty string raises `IndexError`; a dict raises
`KeyError` (its keys are strings, never `0`); other scalars raise
`TypeError`. Only the exception behaviour matters (the value is logged). -/
def checkFsid (data : Dict) : Except PyError Unit :=
  match dictGet data "filament_settings_id" with
  | none => .ok ()
  | some (.jarr []) => .error .indexError
  | some (.jarr (_ :: _)) => .ok ()
  | some (.jstr s) => if s.isEmpty then .error .indexError else .ok ()
  | some (.jobj _) => .error .keyError
  | some _ => .error .typeError

/-- `modify_profile_data(data, source_size, target_size)` with the random
128-bit identifier `u` passed explicitly.  Follows the source order:
shallow-copy, rename `name`, rewrite `compatible_printers` if present, read
the old `filament_settings_id` (line 267, which can raise), then install the
fresh single-element identifier list. -/
def modify_profile_data (data : Dict) (src tgt : String) (u : Nat) : Except PyError Dict :=
  match getNameField data with
  | .error e => .error e
  | .ok name =>
    let m1 := dictSet data "name" (.jstr (pyReplaceS name src tgt))
    match updatePrinters m1 src tgt with
    | .error e => .error e
    | .ok m2 =>
      match checkFsid data with
      | .error e => .error e
      | .ok _ => .ok (dictSet m2 "filament_settings_id" (.jarr [.jstr (newId u)]))

/-- Whether an `Except` is a success. -/
def isOkB : Except PyError α → Bool
  | .ok _ => true
  | .error _ => false

/-- `name.endswith('.json')`, the literal tail of the glob pattern. -/
def endsWithJson (n : List Char) : Bool := n.drop (n.length - 5) = ".json".data

/-- `profile_base.glob(f"*{src}*.json")` membership: the name ends in
`.json` and contains `src` before that suffix (so the name decomposes as
`a ++ src ++ b ++ ".json"`). `src` is a validated nozzle size (digits and
dots), hence free of glob metacharacters. -/
def globMatchSize (src n : List Char) : Bool :=
  endsWithJson n && hasSub src (n.take (n.length - 5))

/-- The snapshot `list(profile_base.glob(f"*{source_size}*.json"))` taken at
the start of `process_profiles`, as filenames in directory order. -/
def matchedFiles (fs : FS) (src : String) : List String :=
  (fs.filter fun p => globMatchSize src.data p.1.data).map Prod.fst

/-- The loop state of `process_profiles`: counters, the live directory, and
the position in the stream of random identifiers. -/
structure BatchState where
  res : ConversionResult
  fs : FS
  uuidIdx : Nat

/-- One iteration of the conversion loop (lines 293–324): open and parse the
file (`errors` on failure), transform it (`errors` on any exception), skip if
the target filename exists, otherwise write the new file. -/
def processOne (src tgt : String) (us : Nat → Nat) (st : BatchState) (n : String) :
    BatchState :=
  match fsGet st.fs n with
  | none => { st with res := { st.res with errors := st.res.errors + 1 } }
  | some none => { st with res := { st.res with errors := st.res.errors + 1 } }
  | some (some data) =>
    match modify_profile_data data src tgt (us st.uuidIdx) with
    | .error _ => { st with res := { st.res with errors := st.res.errors + 1 } }
    | .ok newData =>
      let newName := pyReplaceS n src tgt
      if fsExists st.fs newName then
        { st with res := { st.res with skipped := st.res.skipped + 1 },
                  uuidIdx := st.uuidIdx + 1 }
      else
        { res := { st.res with success := st.res.success + 1 },
          fs := st.fs ++ [(newName, some newData)],
          uuidIdx := st.uuidIdx + 1 }

/-- The conversion loop over the matched-file snapshot. -/
def runBatch (src tgt : String) (us : Nat → Nat) : List String → BatchState → BatchState
  | [], st => st
  | n :: ns, st => runBatch src tgt us ns (processOne src tgt us st n)

/-- `process_profiles(profile_base, source_size, target_size)`: raise
`NozzleConversionError` when no file matches, otherwise run the loop and
return the counters together with the final directory state. -/
def process_profiles (fs : FS) (src tgt : String) (us : Nat → Nat) :
    Except PyError (ConversionResult × FS) :=
  let files := matchedFiles fs src
  if files.isEmpty then
    .error (.nozzle ("🔍 No profiles found matching '" ++ src ++ "' nozzle size"))
  else
    let st := runBatch src tgt us files { res := ⟨0, 0, 0⟩, fs := fs, uuidIdx := 0 }
    .ok (st.res, st.fs)

/-- Success of the transformer is independent of the random identifier, so a
file's outcome can be classified from the directory alone: its content parses
and `modify_profile_data` succeeds on it. -/
def okName (fs : FS) (src tgt : String) (n : String) : Bool :=
  match fsGet fs n with
  | some (some d) => isOkB (modify_profile_data d src tgt 0)
  | _ => false

/-- A matched file whose content is invalid JSON. -/
def isBadJson (fs : FS) (n : String) : Bool :=
  match fsGet fs n with
  | some none => true
  | _ => false

/-- Python whitespace, as stripped/split by `str.strip()` and `str.split()`
(ASCII fragment). -/
def wsChar (c : Char) : Bool :=
  c = ' ' || c = '\t' || c = '\n' || c = '\x0d' || c = '\x0b' || c = '\x0c'

/-- Python `s.strip()`. -/
def pyStrip (s : String) : String :=
  ⟨((s.data.dropWhile wsChar).reverse.dropWhile wsChar).reverse⟩

/-- Python `s.split(sep)` for a one-character separator: splits at every
occurrence, keeping empty parts; always returns at least one part. -/
def pySplitOnChar (sep : Char) : List Char → List (List Char)
  | [] => [[]]
  | c :: r =>
    if c = sep then [] :: pySplitOnChar sep r
    else
      match pySplitOnChar sep r with
      | [] => [[c]]
      | h :: t => (c :: h) :: t

/-- Join segments with a separator character (inverse of `pySplitOnChar` on
separator-free segments): every string is uniquely of this shape. -/
def joinSep (sep : Char) : List (List Char) → List Char
  | [] => []
  | [a] => a
  | a :: b :: r => a ++ sep :: joinSep sep (b :: r)

/-- Worker for `str.split()` with an accumulator of the current token
(reversed). -/
def splitWsAux : List Char → List Char → List (List Char)
  | [], acc => if acc.isEmpty then [] else [acc.reverse]
  | c :: r, acc =>
    if wsChar c then
      if acc.isEmpty then splitWsAux r [] else acc.reverse :: splitWsAux r []
    else splitWsAux r (c :: acc)

/-- Python `s.split()`: whitespace-separated tokens, empties discarded. -/
def pySplitWs (l : List Char) : List (List Char) := splitWsAux l []

/-- Python `str.isdigit()` (ASCII fragment): nonempty and all digits. -/
def pyIsdigit (l : List Char) : Bool :=
  !l.isEmpty && l.all fun c => '0' ≤ c && c ≤ '9'

/-- Decimal value of a digit list (`int` of the digits). -/
def digitsToNat (l : List Char) : Nat :=
  l.foldl (fun a c => a * 10 + (c.toNat - 48)) 0

/-- Python `float(y)` for a token of digits and dots (the only tokens that
reach it): succeeds exactly when at most one dot is present; the value is
kept exactly as the pair (digits, fractional length), denoting the number
`digits / 10 ^ fractional-length`. Two or more dots raise `ValueError`. -/
def pyFloatFrac (l : List Char) : Option (Nat × Nat) :=
  if l.count '.' ≤ 1 then
    some (digitsToNat (l.filter fun c => c ≠ '.'),
      ((l.dropWhile fun c => c ≠ '.').drop 1).length)
  else none

/-- Strict comparison of the numeric values by cross-multiplication:
`p < q` as numbers, exactly `p.1 / 10^p.2 < q.1 / 10^q.2` over ℚ (see
`fracLt_iff_ratCast`). -/
def fracLt (p q : Nat × Nat) : Bool :=
  decide (p.1 * 10 ^ q.2 < q.1 * 10 ^ p.2)

/-- `mapO f l`: run an `Option`-valued function over a list, failing if any
element fails (the key computation of the sort call). -/
def mapO (f : α → Option β) : List α → Option (List β)
  | [] => some []
  | a :: r =>
    match f a with
    | none => none
    | some b =>
      match mapO f r with
      | none => none
      | some bs => some (b :: bs)

/-- The sort key `lambda x: [float(y) for y in x.split() if
y.replace('.','').isdigit()]`; `none` models the `ValueError` raised on a
kept token with two or more dots. -/
def sortKeyF (x : String) : Option (List (Nat × Nat)) :=
  mapO pyFloatFrac
    ((pySplitWs x.data).filter fun y => pyIsdigit (y.filter fun c => c ≠ '.'))

/-- Lexicographic comparison of Python lists of numeric values (`≤` in the
order used by `list.sort`). -/
def lexLeK : List (Nat × Nat) → List (Nat × Nat) → Bool
  | [], _ => true
  | _ :: _, [] => false
  | a :: as, b :: bs => if fracLt a b then true else if fracLt b a then false else lexLeK as bs

/-- Label comparison used by the variant sort (keys compared
lexicographically; total once every key is defined). -/
def labelLe (a b : String) : Bool :=
  lexLeK ((sortKeyF a).getD []) ((sortKeyF b).getD [])

/-- Stable insertion into a sorted list: `a` goes before the first element it
compares `≤` to (so equals keep input order). -/
def insLe (le : String → String → Bool) (a : String) : List String → List String
  | [] => [a]
  | b :: r => if le a b then a :: b :: r else b :: insLe le a r

/-- Stable insertion sort; equal to Python's stable `list.sort` for a total,
transitive comparison. -/
def insSort (le : String → String → Bool) : List String → List String
  | [] => []
  | a :: r => insLe le a (insSort le r)

/-- `f.stem` for the globbed `*.json` names: strip the `.json` suffix, except
for the bare name `.json`, whose `pathlib` stem is itself. -/
def stemOf (n : String) : String :=
  if n.data.length ≤ 5 then n else ⟨n.data.take (n.data.length - 5)⟩

/-- Lines 103–105: split the stem on `'@'`; the material base is the first
part stripped, the variant is the second part stripped, or `'default'` when
there is no separator. -/
def decomposeStem (stem : String) : String × String :=
  let parts := pySplitOnChar '@' stem.data
  (pyStrip ⟨parts.headD []⟩,
    match parts with
    | _ :: p2 :: _ => pyStrip ⟨p2⟩
    | _ => "default")

/-- `groups.setdefault(base, []).append(variant)` over an insertion-ordered
dict of lists. -/
def groupAdd : List (String × List String) → String → String → List (String × List String)
  | [], k, v => [(k, [v])]
  | (k', vs) :: r, k, v =>
    if k' = k then (k', vs ++ [v]) :: r else (k', vs) :: groupAdd r k v

/-- The grouping loop of `get_profile_groups` over the globbed names. -/
def buildGroups (names : List String) : List (String × List String) :=
  names.foldl
    (fun g n =>
      let bv := decomposeStem (stemOf n)
      groupAdd g bv.1 bv.2)
    []

/-- The sorting loop of `get_profile_groups`: for each group compute every
variant's key (raising `ValueError` if any key fails) and sort the variants
stably by the key order. -/
def sortGroups (g : List (String × List String)) :
    Except PyError (List (String × List String)) :=
  mapE
    (fun kv =>
      match mapO sortKeyF kv.2 with
      | none => .error .valueError
      | some _ => .ok (kv.1, insSort labelLe kv.2))
    g

/-- `get_profile_groups(profile_dir)`. The directory is `none` when the path
does not exist; `pathlib`'s `glob` then yields nothing (verified behaviour:
no exception is raised), so the scan sees no files. -/
def get_profile_groups : Option FS → Except PyError (List (String × List String))
  | none => sortGroups (buildGroups [])
  | some fs =>
    sortGroups (buildGroups ((fs.filter fun p => endsWithJson p.1.data).map Prod.fst))

/-- One entry of `base_dir.iterdir()`: its name, whether it is a directory,
and whether it contains a `filament/base` subdirectory. -/
structure DirEntry where
  name : String
  isDir : Bool
  hasFilamentBase : Bool

/-- `find_user_profiles(base_dir)`: a missing base directory makes
`iterdir()` raise `FileNotFoundError`, caught and re-raised as
`NozzleConversionError` with the path; an empty selection raises the
no-profiles `NozzleConversionError`. -/
def find_user_profiles (baseDir : String) : Option (List DirEntry) →
    Except PyError (List String)
  | none => .error (.nozzle ("❌ Directory not found: " ++ baseDir))
  | some entries =>
    let users := (entries.filter fun e => e.isDir && e.hasFilamentBase).map DirEntry.name
    if users.isEmpty then .error (.nozzle "🔍 No user profiles found")
    else .ok users

/-! Concrete inputs used by counterexamples and witnesses. -/

/-- A degenerate stream of random identifiers (uuid4 always returning 0). -/
def usZero : Nat → Nat := fun _ => 0

/-- A directory that already holds one of the conversion targets:
`a0.4.json`'s target `a0.8.json` exists, `b0.4.json`'s does not. -/
def fsC : FS :=
  [("a0.4.json", some [("name", JVal.jstr "A 0.4")]),
   ("a0.8.json", some [("name", JVal.jstr "A 0.8")]),
   ("b0.4.json", some [("name", JVal.jstr "B 0.4")])]

/-- The directory after one run of `process_profiles fsC "0.4" "0.8"`:
only `b0.8.json` was created. -/
def fs1C : FS :=
  fsC ++ [("b0.8.json", some [("name", JVal.jstr "B 0.8"),
    ("filament_settings_id", JVal.jarr [JVal.jstr "PFUS0000000000000000"])])]

/-- A directory whose only file matches "0.6" but not "0.4". -/
def fs4W : FS := [("a0.6.json", some [])]

/-- Three matched files, exactly one of which has invalid JSON text. -/
def fs5W : FS :=
  [("a0.4.json", some []), ("bad0.4.json", none),
   ("c0.4.json", some [("name", JVal.jstr "C")])]

/-- A record with a field the transformer does not touch. -/
def mInW : Dict := [("x", JVal.jstr "keep"), ("name", JVal.jstr "n0.4")]

/-- The transformer's output on `mInW` (identifier stream at 0). -/
def mOutW : Dict :=
  [("x", JVal.jstr "keep"), ("name", JVal.jstr "n0.8"),
   ("filament_settings_id", JVal.jarr [JVal.jstr "PFUS0000000000000000"])]

/-- The transformer's output on the empty record. -/
def outW10 : Dict :=
  [("name", JVal.jstr ""),
   ("filament_settings_id", JVal.jarr [JVal.jstr "PFUS0000000000000000"])]

/-! Helper lemmas: dictionaries. -/

theorem dictGet_dictSet_self (d : Dict) (k : String) (v : JVal) :
    dictGet (dictSet d k v) k = some v := by
  induction d with
  | nil => simp [dictGet, dictSet]
  | cons a r ih =>
    by_cases h : a.1 = k
    · simp [dictGet, dictSet, h]
    · simp [dictGet, dictSet, h, ih]

theorem dictGet_dictSet_ne (d : Dict) (k k' : String) (v : JVal) (h : k' ≠ k) :
    dictGet (dictSet d k v) k' = dictGet d k' := by
  have hkk : k ≠ k' := Ne.symm h
  induction d with
  | nil => simp [dictGet, dictSet, hkk]
  | cons a r ih =>
    obtain ⟨ak, av⟩ := a
    by_cases hak : ak = k
    · subst hak
      simp [dictGet, dictSet, hkk]
    · by_cases hak' : ak = k'
      · subst hak'
        simp [dictGet, dictSet, hak]
      · simp [dictGet, dictSet, hak, hak', ih]

/-! Helper lemmas: the transformer. -/

theorem updatePrinters_frame (m m2 : Dict) (s t : String)
    (h : updatePrinters m s t = .ok m2) :
    ∀ k, k ≠ "compatible_printers" → dictGet m2 k = dictGet m k := by
  intro k hk
  unfold updatePrinters at h
  split at h
  · cases h; rfl
  · rename_i l _
    split at h
    · cases h
    · cases h; exact dictGet_dictSet_ne _ _ _ _ hk
  · cases h; exact dictGet_dictSet_ne _ _ _ _ hk
  · cases h; exact dictGet_dictSet_ne _ _ _ _ hk
  · cases h

theorem updatePrinters_absent (m : Dict) (s t : String)
    (h : dictGet m "compatible_printers" = none) :
    updatePrinters m s t = .ok m := by
  unfold updatePrinters
  rw [h]

theorem modify_ok_elim (data out : Dict) (s t : String) (u : Nat)
    (h : modify_profile_data data s t u = .ok out) :
    ∃ name m2, getNameField data = .ok name ∧
      updatePrinters (dictSet data "name" (.jstr (pyReplaceS name s t))) s t = .ok m2 ∧
      checkFsid data = .ok () ∧
      out = dictSet m2 "filament_settings_id" (.jarr [.jstr (newId u)]) := by
  unfold modify_profile_data at h
  cases hname : getNameField data with
  | error e => simp [hname] at h
  | ok name =>
    simp only [hname] at h
    cases hup : updatePrinters (dictSet data "name" (.jstr (pyReplaceS name s t))) s t with
    | error e => simp [hup] at h
    | ok m2 =>
      simp only [hup] at h
      cases hchk : checkFsid data with
      | error e => simp [hchk] at h
      | ok uu =>
        cases uu
        simp only [hchk, Except.ok.injEq] at h
        exact ⟨name, m2, rfl, hup, by simp [hchk], h.symm⟩

theorem pyRepGo_nil_of_cons (c : Char) (r new : List Char) (k : Nat) :
    pyRepGo (c :: r) new [] k = [] := rfl

theorem pyReplaceS_empty (src tgt : String) (h : src ≠ "") :
    pyReplaceS "" src tgt = "" := by
  cases hsd : src.data with
  | nil =>
    exact absurd (by rw [← show String.mk src.data = src from rfl, hsd] : src = "") h
  | cons c r =>
    show String.mk (pyRepGo src.data tgt.data ("" : String).data 0) = ""
    rw [hsd]
    rfl

theorem mapE_replacePrinter_jstr (src tgt : String) :
    ∀ l : List String,
      mapE (replacePrinter src tgt) (l.map JVal.jstr) =
        .ok (l.map fun x => .jstr (pyReplaceS x src tgt)) := by
  intro l
  induction l with
  | nil => rfl
  | cons a r ih => simp [mapE, replacePrinter, ih]

theorem natToHexPad_length : ∀ k n : Nat, (natToHexPad k n).length = k := by
  intro k
  induction k with
  | zero => intro n; rfl
  | succ k ih => intro n; simp [natToHexPad, ih]

theorem hexSuffixL_length (u : Nat) : (hexSuffixL u).length = 16 := by
  unfold hexSuffixL
  rw [List.length_take, natToHexPad_length]
  omega

theorem hexDigitChar_mem (m : Nat) (h : m < 16) :
    hexDigitChar m ∈ ("0123456789abcdef" : String).data := by
  interval_cases m <;> decide

theorem natToHexPad_mem :
    ∀ k n : Nat, ∀ c ∈ natToHexPad k n, c ∈ ("0123456789abcdef" : String).data := by
  intro k
  induction k with
  | zero => intro n c hc; simp [natToHexPad] at hc
  | succ k ih =>
    intro n c hc
    simp only [natToHexPad, List.mem_append, List.mem_singleton] at hc
    rcases hc with hc | hc
    · exact ih _ c hc
    · rw [hc]
      exact hexDigitChar_mem _ (Nat.mod_lt _ (by decide))

theorem hexSuffixL_mem (u : Nat) :
    ∀ c ∈ hexSuffixL u, c ∈ ("0123456789abcdef" : String).data := by
  intro c hc
  exact natToHexPad_mem 32 u c (List.take_subset _ _ hc)

/-! Claims about the transformer. -/

/-- C2 counterexample: a record whose `filament_settings_id` is the empty
list makes `modify_profile_data` raise `IndexError` (line 267 indexes
`data.get('filament_settings_id', [''])[0]`), so the claim that the
transformer succeeds regardless of the field's previous value is false. -/
theorem C2_counterexample :
    modify_profile_data [("filament_settings_id", JVal.jarr [])] "0.4" "0.8" 0
      = .error .indexError := rfl

/-- C2 amended: for every record whose `name` (if present) is a string,
whose `compatible_printers` (if present) is a list of strings, and whose
`filament_settings_id` is absent or holds a non-empty list or non-empty
string, the transformer succeeds and sets `filament_settings_id` to the
single-element list `"PFUS"` + the first 16 hexadecimal characters of the
128-bit random identifier; a present-but-empty value raises `IndexError`
instead (see the counterexample). -/
theorem C2_amended (data : Dict) (src tgt : String) (u : Nat) (hu : u < 2 ^ 128)
    (hname : dictGet data "name" = none ∨ ∃ s, dictGet data "name" = some (.jstr s))
    (hcp : dictGet data "compatible_printers" = none ∨
      ∃ l : List String, dictGet data "compatible_printers" = some (.jarr (l.map JVal.jstr)))
    (hfsid : dictGet data "filament_settings_id" = none ∨
      (∃ v l, dictGet data "filament_settings_id" = some (.jarr (v :: l))) ∨
      (∃ s, dictGet data "filament_settings_id" = some (.jstr s) ∧ s ≠ "")) :
    ∃ out, modify_profile_data data src tgt u = .ok out ∧
      dictGet out "filament_settings_id" = some (.jarr [.jstr (newId u)]) ∧
      newId u = "PFUS" ++ ⟨hexSuffixL u⟩ ∧
      (hexSuffixL u).length = 16 ∧
      ∀ c ∈ hexSuffixL u, c ∈ ("0123456789abcdef" : String).data := by
  have hgn : ∃ nm, getNameField data = .ok nm := by
    rcases hname with h | ⟨s, h⟩
    · exact ⟨"", by unfold getNameField; rw [h]⟩
    · exact ⟨s, by unfold getNameField; rw [h]⟩
  obtain ⟨nm, hgn⟩ := hgn
  have hcp1 : dictGet (dictSet data "name" (.jstr (pyReplaceS nm src tgt)))
      "compatible_printers" = dictGet data "compatible_printers" :=
    dictGet_dictSet_ne _ _ _ _ (by decide)
  have hup : ∃ m2,
      updatePrinters (dictSet data "name" (.jstr (pyReplaceS nm src tgt))) src tgt
        = .ok m2 := by
    rcases hcp with h | ⟨l, h⟩
    · exact ⟨_, updatePrinters_absent _ _ _ (hcp1.trans h)⟩
    · refine ⟨dictSet (dictSet data "name" (.jstr (pyReplaceS nm src tgt)))
        "compatible_printers" (.jarr (l.map fun x => .jstr (pyReplaceS x src tgt))), ?_⟩
      simp only [updatePrinters, hcp1, h, mapE_replacePrinter_jstr]
  obtain ⟨m2, hup⟩ := hup
  have hchk : checkFsid data = .ok () := by
    unfold checkFsid
    rcases hfsid with h | ⟨v, l, h⟩ | ⟨s, h, hs⟩
    · rw [h]
    · rw [h]
    · rw [h]
      have hse : s.isEmpty = false := by
        cases hh : s.isEmpty
        · rfl
        · exact absurd ((String.isEmpty_iff s).mp hh) hs
      simp [hse]
  refine ⟨dictSet m2 "filament_settings_id" (.jarr [.jstr (newId u)]), ?_, ?_,
    rfl, hexSuffixL_length u, hexSuffixL_mem u⟩
  · simp only [modify_profile_data, hgn, hup, hchk]
  · exact dictGet_dictSet_self _ _ _

/-- C2 witness: instantiation at the empty record with identifier 0. -/
theorem C2_witness :
    ∃ out, modify_profile_data [] "0.4" "0.8" 0 = .ok out ∧
      dictGet out "filament_settings_id" = some (.jarr [.jstr (newId 0)]) ∧
      newId 0 = "PFUS" ++ ⟨hexSuffixL 0⟩ ∧
      (hexSuffixL 0).length = 16 ∧
      ∀ c ∈ hexSuffixL 0, c ∈ ("0123456789abcdef" : String).data :=
  C2_amended [] "0.4" "0.8" 0 (by decide) (Or.inl rfl) (Or.inl rfl) (Or.inl rfl)

/-- C3: the transformer is pure over the embedding (it builds its output
from a shallow copy and never assigns into the input), and it frames its
effect: whenever it succeeds, every field other than `name`,
`compatible_printers` and `filament_settings_id` is the same in output and
input. -/
theorem C3_frame (data : Dict) (src tgt : String) (u : Nat) (out : Dict)
    (h : modify_profile_data data src tgt u = .ok out) :
    ∀ k, k ≠ "name" → k ≠ "compatible_printers" → k ≠ "filament_settings_id" →
      dictGet out k = dictGet data k := by
  intro k hk1 hk2 hk3
  obtain ⟨name, m2, _, hup, _, hout⟩ := modify_ok_elim data out src tgt u h
  rw [hout, dictGet_dictSet_ne _ _ _ _ hk3, updatePrinters_frame _ _ _ _ hup k hk2,
    dictGet_dictSet_ne _ _ _ _ hk1]

/-- C3 witness: the untouched field `x` of a concrete record. -/
theorem C3_witness : dictGet mOutW "x" = dictGet mInW "x" :=
  C3_frame mInW "0.4" "0.8" 0 mOutW rfl "x" (by decide) (by decide) (by decide)

/-- C10: when the input record has no `name` field the transformer invents
one: the output's `name` is the empty string (`data.get('name', '')` then
replacement inside the empty string); `compatible_printers`, by contrast,
stays absent when absent.  The source size is non-empty (it is validated as
digits-and-dot upstream); an empty source would make Python's
`''.replace('', tgt)` return `tgt` instead. -/
theorem C10_nameInvented (data : Dict) (src tgt : String) (u : Nat) (out : Dict)
    (hsrc : src ≠ "")
    (hname : dictGet data "name" = none)
    (h : modify_profile_data data src tgt u = .ok out) :
    dictGet out "name" = some (.jstr "") ∧
      (dictGet data "compatible_printers" = none →
        dictGet out "compatible_printers" = none) := by
  obtain ⟨name, m2, hgn, hup, _, hout⟩ := modify_ok_elim data out src tgt u h
  have hname0 : name = "" := by
    unfold getNameField at hgn
    rw [hname] at hgn
    exact (Except.ok.injEq _ _).mp hgn.symm
  subst hname0
  rw [pyReplaceS_empty src tgt hsrc] at hup
  constructor
  · rw [hout, dictGet_dictSet_ne _ _ _ _ (by decide),
      updatePrinters_frame _ _ _ _ hup "name" (by decide), dictGet_dictSet_self]
  · intro hcp
    have hcp1 : dictGet (dictSet data "name" (.jstr "")) "compatible_printers" = none := by
      rw [dictGet_dictSet_ne _ _ _ _ (by decide)]
      exact hcp
    have := updatePrinters_absent (dictSet data "name" (.jstr "")) src tgt hcp1
    rw [this] at hup
    have hm2 : m2 = dictSet data "name" (.jstr "") :=
      ((Except.ok.injEq _ _).mp hup).symm
    rw [hout, dictGet_dictSet_ne _ _ _ _ (by decide), hm2, hcp1]

/-- C10 witness: the empty record gains `name = ""` and no
`compatible_printers`. -/
theorem C10_witness :
    dictGet outW10 "name" = some (.jstr "") ∧
      (dictGet ([] : Dict) "compatible_printers" = none →
        dictGet outW10 "compatible_printers" = none) :=
  C10_nameInvented [] "0.4" "0.8" 0 outW10 (by decide) rfl rfl

/-! Helper lemmas: substrings. -/

theorem leadsWith_iff (p : List Char) :
    ∀ l, leadsWith p l = true ↔ ∃ t, l = p ++ t := by
  induction p with
  | nil => intro l; simp [leadsWith]
  | cons a as ih =>
    intro l
    cases l with
    | nil => simp [leadsWith]
    | cons b bs =>
      simp only [leadsWith, Bool.and_eq_true, beq_iff_eq, ih bs]
      constructor
      · rintro ⟨hab, t, ht⟩
        exact ⟨t, by rw [ht, hab]; rfl⟩
      · rintro ⟨t, ht⟩
        rw [List.cons_append] at ht
        cases ht
        exact ⟨rfl, t, rfl⟩

theorem hasSub_iff (p : List Char) :
    ∀ l, hasSub p l = true ↔ ∃ x y, l = x ++ p ++ y := by
  intro l
  induction l with
  | nil =>
    simp only [hasSub, List.isEmpty_iff]
    constructor
    · intro h; exact ⟨[], [], by rw [h]; rfl⟩
    · rintro ⟨x, y, hxy⟩
      rcases List.append_eq_nil.mp hxy.symm with ⟨h1, -⟩
      exact (List.append_eq_nil.mp h1).2
  | cons c r ih =>
    simp only [hasSub, Bool.or_eq_true, leadsWith_iff, ih]
    constructor
    · rintro (⟨t, ht⟩ | ⟨x, y, hxy⟩)
      · exact ⟨[], t, by rw [ht]; rfl⟩
      · exact ⟨c :: x, y, by rw [hxy]; rfl⟩
    · rintro ⟨x, y, hxy⟩
      cases x with
      | nil => exact Or.inl ⟨y, by simpa using hxy⟩
      | cons x0 xs =>
        rw [List.cons_append, List.cons_append] at hxy
        cases hxy
        exact Or.inr ⟨xs, y, rfl⟩

theorem hasSub_take (p l : List Char) (k : Nat)
    (h : hasSub p (l.take k) = true) : hasSub p l = true := by
  rw [hasSub_iff] at h ⊢
  obtain ⟨x, y, hxy⟩ := h
  refine ⟨x, y ++ l.drop k, ?_⟩
  conv_lhs => rw [← List.take_append_drop k l]
  rw [hxy]
  simp [List.append_assoc]

/-! Helper lemmas: the directory model. -/

theorem fsGet_append_left (fs : FS) (n : String)
    (h : (fsGet fs n).isSome = true) :
    ∀ e, fsGet (fs ++ e) n = fsGet fs n := by
  intro e
  induction fs with
  | nil => simp [fsGet] at h
  | cons a r ih =>
    obtain ⟨m, c⟩ := a
    by_cases hm : m = n
    · simp [fsGet, hm]
    · simp only [fsGet, hm, if_false, List.cons_append] at h ⊢
      exact ih h

theorem fsExists_of_mem (fs : FS) (n : String) (c : Content)
    (h : (n, c) ∈ fs) : fsExists fs n = true := by
  induction fs with
  | nil => cases h
  | cons a r ih =>
    obtain ⟨m, c'⟩ := a
    rcases List.mem_cons.mp h with h1 | h1
    · cases h1
      simp [fsExists, fsGet]
    · by_cases hm : m = n
      · simp [fsExists, fsGet, hm]
      · simpa [fsExists, fsGet, hm] using ih h1

theorem fsExists_append (fs e : FS) (n : String)
    (h : fsExists fs n = true) : fsExists (fs ++ e) n = true := by
  unfold fsExists at h ⊢
  rw [fsGet_append_left fs n h e]
  exact h

theorem fsExists_append_self (fs : FS) (n : String) (c : Content) :
    fsExists (fs ++ [(n, c)]) n = true := by
  induction fs with
  | nil => simp [fsExists, fsGet]
  | cons a r ih =>
    obtain ⟨m, c'⟩ := a
    by_cases hm : m = n
    · simp [fsExists, fsGet, hm]
    · simpa [fsExists, fsGet, hm] using ih

theorem okName_append (fs e : FS) (src tgt : String) (n : String)
    (h : fsExists fs n = true) :
    okName (fs ++ e) src tgt n = okName fs src tgt n := by
  unfold okName
  rw [fsGet_append_left fs n h e]

theorem mem_matchedFiles (fs : FS) (src : String) (n : String)
    (h : n ∈ matchedFiles fs src) : fsExists fs n = true := by
  unfold matchedFiles at h
  obtain ⟨p, hp, hpn⟩ := List.mem_map.mp h
  rw [← hpn]
  exact fsExists_of_mem fs p.1 p.2 (List.mem_of_mem_filter hp)

theorem matchedFiles_append (fs e : FS) (src : String) :
    matchedFiles (fs ++ e) src = matchedFiles fs src ++ matchedFiles e src := by
  unfold matchedFiles
  rw [List.filter_append, List.map_append]

theorem length_filter_add (p : α → Bool) (l : List α) :
    (l.filter p).length + (l.filter fun a => !(p a)).length = l.length := by
  induction l with
  | nil => rfl
  | cons a r ih =>
    cases hp : p a <;> simp [List.filter_cons, hp, ← ih] <;> omega

/-! Helper lemmas: outcome of one file is classified by `okName`. -/

theorem isOkB_true (e : Except PyError α) (h : isOkB e = true) : ∃ a, e = .ok a := by
  cases e with
  | ok a => exact ⟨a, rfl⟩
  | error err => simp [isOkB] at h

theorem isOkB_false (e : Except PyError α) (h : isOkB e = false) :
    ∃ err, e = .error err := by
  cases e with
  | ok a => simp [isOkB] at h
  | error err => exact ⟨err, rfl⟩

theorem modify_isOk (d : Dict) (s t : String) (u : Nat) :
    isOkB (modify_profile_data d s t u) = isOkB (modify_profile_data d s t 0) := by
  unfold modify_profile_data
  cases hgn : getNameField d with
  | error e => rfl
  | ok name =>
    simp only [hgn]
    cases hup : updatePrinters (dictSet d "name" (.jstr (pyReplaceS name s t))) s t with
    | error e => rfl
    | ok m2 =>
      simp only [hup]
      cases hchk : checkFsid d with
      | error e => rfl
      | ok uu => simp [isOkB]

/-! Helper lemmas: one loop iteration, by case. -/

theorem processOne_notFound (src tgt : String) (us : Nat → Nat) (st : BatchState)
    (n : String) (h : fsGet st.fs n = none) :
    processOne src tgt us st n =
      { st with res := { st.res with errors := st.res.errors + 1 } } := by
  unfold processOne
  rw [h]

theorem processOne_badJson (src tgt : String) (us : Nat → Nat) (st : BatchState)
    (n : String) (h : fsGet st.fs n = some none) :
    processOne src tgt us st n =
      { st with res := { st.res with errors := st.res.errors + 1 } } := by
  unfold processOne
  rw [h]

theorem processOne_modifyFail (src tgt : String) (us : Nat → Nat) (st : BatchState)
    (n : String) (d : Dict) (err : PyError)
    (h : fsGet st.fs n = some (some d))
    (hm : modify_profile_data d src tgt (us st.uuidIdx) = .error err) :
    processOne src tgt us st n =
      { st with res := { st.res with errors := st.res.errors + 1 } } := by
  unfold processOne
  rw [h]
  simp only [hm]

theorem processOne_skip (src tgt : String) (us : Nat → Nat) (st : BatchState)
    (n : String) (d nd : Dict)
    (h : fsGet st.fs n = some (some d))
    (hm : modify_profile_data d src tgt (us st.uuidIdx) = .ok nd)
    (he : fsExists st.fs (pyReplaceS n src tgt) = true) :
    processOne src tgt us st n =
      { st with res := { st.res with skipped := st.res.skipped + 1 },
                uuidIdx := st.uuidIdx + 1 } := by
  unfold processOne
  rw [h]
  simp only [hm, he, if_true]

theorem processOne_write (src tgt : String) (us : Nat → Nat) (st : BatchState)
    (n : String) (d nd : Dict)
    (h : fsGet st.fs n = some (some d))
    (hm : modify_profile_data d src tgt (us st.uuidIdx) = .ok nd)
    (he : fsExists st.fs (pyReplaceS n src tgt) = false) :
    processOne src tgt us st n =
      { res := { st.res with success := st.res.success + 1 },
        fs := st.fs ++ [(pyReplaceS n src tgt, some nd)],
        uuidIdx := st.uuidIdx + 1 } := by
  unfold processOne
  rw [h]
  simp only [hm, he]
  rfl

/-- Master invariant of the conversion loop, relative to a base directory
`fs0` that the loop's state extends: the loop only appends files whose names
are size-replacements of processed names; `success + skipped` counts exactly
the matched files whose content parses and transforms; `errors` counts the
rest; and after the loop, the target name of every well-formed processed file
exists. -/
theorem runBatch_spec (src tgt : String) (us : Nat → Nat) (fs0 : FS) :
    ∀ (ns : List String) (st : BatchState),
      (∃ e, st.fs = fs0 ++ e) →
      (∀ m ∈ ns, fsExists fs0 m = true) →
      (∃ ext, (runBatch src tgt us ns st).fs = st.fs ++ ext ∧
          ∀ p ∈ ext, ∃ m ∈ ns, p.1 = pyReplaceS m src tgt) ∧
      (runBatch src tgt us ns st).res.success + (runBatch src tgt us ns st).res.skipped
          = st.res.success + st.res.skipped
            + (ns.filter (okName fs0 src tgt)).length ∧
      (runBatch src tgt us ns st).res.errors
          = st.res.errors + (ns.filter fun m => !(okName fs0 src tgt m)).length ∧
      (∀ m ∈ ns, okName fs0 src tgt m = true →
          fsExists (runBatch src tgt us ns st).fs (pyReplaceS m src tgt) = true) := by
  intro ns
  induction ns with
  | nil =>
    intro st _ _
    exact ⟨⟨[], by simp [runBatch], by simp⟩, by simp [runBatch], by simp [runBatch],
      by simp⟩
  | cons n ns ih =>
    intro st hst hex
    obtain ⟨e, he⟩ := hst
    have hn : fsExists fs0 n = true := hex n (List.mem_cons_self n ns)
    have hget : fsGet st.fs n = fsGet fs0 n := by
      rw [he]
      exact fsGet_append_left fs0 n hn e
    have hrb : runBatch src tgt us (n :: ns) st
        = runBatch src tgt us ns (processOne src tgt us st n) := rfl
    cases hk : fsGet fs0 n with
    | none =>
      unfold fsExists at hn
      rw [hk] at hn
      simp at hn
    | some c =>
      cases c with
      | none =>
        have hokname : okName fs0 src tgt n = false := by simp [okName, hk]
        have hp := processOne_badJson src tgt us st n (by rw [hget, hk])
        obtain ⟨⟨ext, hfs, hextP⟩, hcnt, herrs, htgt⟩ :=
          ih { st with res := { st.res with errors := st.res.errors + 1 } }
            ⟨e, he⟩ (fun m hm => hex m (List.mem_cons_of_mem _ hm))
        rw [hrb, hp]
        refine ⟨⟨ext, hfs, fun p hp2 => ?_⟩, ?_, ?_, ?_⟩
        · obtain ⟨m, hm, heq⟩ := hextP p hp2
          exact ⟨m, List.mem_cons_of_mem _ hm, heq⟩
        · rw [hcnt]
          simp [List.filter_cons, hokname]
        · rw [herrs]
          simp [List.filter_cons, hokname]
          omega
        · intro m hm hok
          rcases List.mem_cons.mp hm with h1 | h1
          · rw [h1] at hok
            rw [hok] at hokname
            cases hokname
          · exact htgt m h1 hok
      | some d =>
        cases ho : isOkB (modify_profile_data d src tgt 0) with
        | false =>
          have hokname : okName fs0 src tgt n = false := by simp [okName, hk, ho]
          have hmu : isOkB (modify_profile_data d src tgt (us st.uuidIdx)) = false := by
            rw [modify_isOk]
            exact ho
          obtain ⟨err, herr⟩ := isOkB_false _ hmu
          have hp := processOne_modifyFail src tgt us st n d err (by rw [hget, hk]) herr
          obtain ⟨⟨ext, hfs, hextP⟩, hcnt, herrs, htgt⟩ :=
            ih { st with res := { st.res with errors := st.res.errors + 1 } }
              ⟨e, he⟩ (fun m hm => hex m (List.mem_cons_of_mem _ hm))
          rw [hrb, hp]
          refine ⟨⟨ext, hfs, fun p hp2 => ?_⟩, ?_, ?_, ?_⟩
          · obtain ⟨m, hm, heq⟩ := hextP p hp2
            exact ⟨m, List.mem_cons_of_mem _ hm, heq⟩
          · rw [hcnt]
            simp [List.filter_cons, hokname]
          · rw [herrs]
            simp [List.filter_cons, hokname]
            omega
          · intro m hm hok
            rcases List.mem_cons.mp hm with h1 | h1
            · rw [h1] at hok
              rw [hok] at hokname
              cases hokname
            · exact htgt m h1 hok
        | true =>
          have hokname : okName fs0 src tgt n = true := by simp [okName, hk, ho]
          have hmu : isOkB (modify_profile_data d src tgt (us st.uuidIdx)) = true := by
            rw [modify_isOk]
            exact ho
          obtain ⟨nd, hnd⟩ := isOkB_true _ hmu
          cases hex2 : fsExists st.fs (pyReplaceS n src tgt) with
          | true =>
            have hp := processOne_skip src tgt us st n d nd (by rw [hget, hk]) hnd hex2
            obtain ⟨⟨ext, hfs, hextP⟩, hcnt, herrs, htgt⟩ :=
              ih { st with res := { st.res with skipped := st.res.skipped + 1 },
                           uuidIdx := st.uuidIdx + 1 }
                ⟨e, he⟩ (fun m hm => hex m (List.mem_cons_of_mem _ hm))
            rw [hrb, hp]
            refine ⟨⟨ext, hfs, fun p hp2 => ?_⟩, ?_, ?_, ?_⟩
            · obtain ⟨m, hm, heq⟩ := hextP p hp2
              exact ⟨m, List.mem_cons_of_mem _ hm, heq⟩
            · rw [hcnt]
              simp [List.filter_cons, hokname]
              omega
            · rw [herrs]
              simp [List.filter_cons, hokname]
            · intro m hm hok
              rcases List.mem_cons.mp hm with h1 | h1
              · rw [h1]
                rw [hfs]
                exact fsExists_append _ _ _ hex2
              · exact htgt m h1 hok
          | false =>
            have hp := processOne_write src tgt us st n d nd (by rw [hget, hk]) hnd hex2
            have hpfs : (processOne src tgt us st n).fs
                = st.fs ++ [(pyReplaceS n src tgt, some nd)] := by
              rw [hp]
            have hpsucc : (processOne src tgt us st n).res.success
                = st.res.success + 1 := by
              rw [hp]
            have hpskip : (processOne src tgt us st n).res.skipped
                = st.res.skipped := by
              rw [hp]
            have hperr : (processOne src tgt us st n).res.errors
                = st.res.errors := by
              rw [hp]
            obtain ⟨⟨ext, hfs, hextP⟩, hcnt, herrs, htgt⟩ :=
              ih (processOne src tgt us st n)
                ⟨e ++ [(pyReplaceS n src tgt, some nd)], by
                  rw [hpfs, he, List.append_assoc]⟩
                (fun m hm => hex m (List.mem_cons_of_mem _ hm))
            rw [hrb]
            rw [hpfs] at hfs
            refine ⟨⟨(pyReplaceS n src tgt, some nd) :: ext, ?_, fun p hp2 => ?_⟩,
              ?_, ?_, ?_⟩
            · rw [hfs]
              simp
            · rcases List.mem_cons.mp hp2 with h1 | h1
              · rw [h1]
                exact ⟨n, List.mem_cons_self n ns, rfl⟩
              · obtain ⟨m, hm, heq⟩ := hextP p h1
                exact ⟨m, List.mem_cons_of_mem _ hm, heq⟩
            · rw [hcnt, hpsucc, hpskip]
              simp [List.filter_cons, hokname]
              omega
            · rw [herrs, hperr]
              simp [List.filter_cons, hokname]
            · intro m hm hok
              rcases List.mem_cons.mp hm with h1 | h1
              · rw [h1, hfs]
                exact fsExists_append _ _ _
                  (fsExists_append_self st.fs (pyReplaceS n src tgt) (some nd))
              · exact htgt m h1 hok

/-- Second-run invariant: over a fixed directory in which every well-formed
matched file already has its target, the loop writes nothing, never bumps
`success`, and skips exactly the well-formed files. -/
theorem runBatch_allSkip (src tgt : String) (us : Nat → Nat) (fs1 : FS) :
    ∀ (ns : List String) (st : BatchState),
      st.fs = fs1 →
      (∀ m ∈ ns, okName fs1 src tgt m = true →
        fsExists fs1 (pyReplaceS m src tgt) = true) →
      (runBatch src tgt us ns st).fs = fs1 ∧
      (runBatch src tgt us ns st).res.success = st.res.success ∧
      (runBatch src tgt us ns st).res.skipped
        = st.res.skipped + (ns.filter (okName fs1 src tgt)).length ∧
      (runBatch src tgt us ns st).res.errors
        = st.res.errors + (ns.filter fun m => !(okName fs1 src tgt m)).length := by
  intro ns
  induction ns with
  | nil =>
    intro st hfs _
    exact ⟨hfs, rfl, by simp [runBatch], by simp [runBatch]⟩
  | cons n ns ih =>
    intro st hfs htg
    have hrb : runBatch src tgt us (n :: ns) st
        = runBatch src tgt us ns (processOne src tgt us st n) := rfl
    cases hk : fsGet fs1 n with
    | none =>
      have hokname : okName fs1 src tgt n = false := by simp [okName, hk]
      have hp := processOne_notFound src tgt us st n (by rw [hfs]; exact hk)
      obtain ⟨h1, h2, h3, h4⟩ :=
        ih { st with res := { st.res with errors := st.res.errors + 1 } } hfs
          (fun m hm => htg m (List.mem_cons_of_mem _ hm))
      rw [hrb, hp]
      refine ⟨h1, h2, ?_, ?_⟩
      · rw [h3]
        simp [List.filter_cons, hokname]
      · rw [h4]
        simp [List.filter_cons, hokname]
        omega
    | some c =>
      cases c with
      | none =>
        have hokname : okName fs1 src tgt n = false := by simp [okName, hk]
        have hp := processOne_badJson src tgt us st n (by rw [hfs]; exact hk)
        obtain ⟨h1, h2, h3, h4⟩ :=
          ih { st with res := { st.res with errors := st.res.errors + 1 } } hfs
            (fun m hm => htg m (List.mem_cons_of_mem _ hm))
        rw [hrb, hp]
        refine ⟨h1, h2, ?_, ?_⟩
        · rw [h3]
          simp [List.filter_cons, hokname]
        · rw [h4]
          simp [List.filter_cons, hokname]
          omega
      | some d =>
        cases ho : isOkB (modify_profile_data d src tgt 0) with
        | false =>
          have hokname : okName fs1 src tgt n = false := by simp [okName, hk, ho]
          have hmu : isOkB (modify_profile_data d src tgt (us st.uuidIdx)) = false := by
            rw [modify_isOk]
            exact ho
          obtain ⟨err, herr⟩ := isOkB_false _ hmu
          have hp := processOne_modifyFail src tgt us st n d err
            (by rw [hfs]; exact hk) herr
          obtain ⟨h1, h2, h3, h4⟩ :=
            ih { st with res := { st.res with errors := st.res.errors + 1 } } hfs
              (fun m hm => htg m (List.mem_cons_of_mem _ hm))
          rw [hrb, hp]
          refine ⟨h1, h2, ?_, ?_⟩
          · rw [h3]
            simp [List.filter_cons, hokname]
          · rw [h4]
            simp [List.filter_cons, hokname]
            omega
        | true =>
          have hokname : okName fs1 src tgt n = true := by simp [okName, hk, ho]
          have hmu : isOkB (modify_profile_data d src tgt (us st.uuidIdx)) = true := by
            rw [modify_isOk]
            exact ho
          obtain ⟨nd, hnd⟩ := isOkB_true _ hmu
          have hfex : fsExists fs1 (pyReplaceS n src tgt) = true :=
            htg n (List.mem_cons_self n ns) hokname
          have hp := processOne_skip src tgt us st n d nd (by rw [hfs]; exact hk) hnd
            (by rw [hfs]; exact hfex)
          obtain ⟨h1, h2, h3, h4⟩ :=
            ih { st with res := { st.res with skipped := st.res.skipped + 1 },
                         uuidIdx := st.uuidIdx + 1 } hfs
              (fun m hm => htg m (List.mem_cons_of_mem _ hm))
          rw [hrb, hp]
          refine ⟨h1, h2, ?_, ?_⟩
          · rw [h3]
            simp [List.filter_cons, hokname]
            omega
          · rw [h4]
            simp [List.filter_cons, hokname]

/-! Claims about the batch converter's error handling. -/

/-- C4: when no file's name contains the source size token as a substring,
`process_profiles` raises the `NozzleConversionError` no-match failure
before processing any file, and (the loop never being entered) writes
nothing. -/
theorem C4_noMatch (fs : FS) (src tgt : String) (us : Nat → Nat)
    (h : ∀ p ∈ fs, hasSub src.data p.1.data = false) :
    process_profiles fs src tgt us
      = .error (.nozzle ("🔍 No profiles found matching '" ++ src ++ "' nozzle size")) := by
  have hm : matchedFiles fs src = [] := by
    unfold matchedFiles
    rw [List.filter_eq_nil_iff.mpr ?_]
    · rfl
    · intro p hp hg
      unfold globMatchSize at hg
      have h2 := (Bool.and_eq_true _ _).mp hg
      have h3 := hasSub_take src.data p.1.data (p.1.data.length - 5) h2.2
      rw [h p hp] at h3
      cases h3
  simp [process_profiles, hm]

/-- C4 witness: a directory whose only file matches "0.6" raises the
no-match error for source "0.4". -/
theorem C4_witness :
    process_profiles fs4W "0.4" "0.8" usZero
      = .error (.nozzle ("🔍 No profiles found matching '" ++ "0.4" ++ "' nozzle size")) :=
  C4_noMatch fs4W "0.4" "0.8" usZero (by decide)

/-- C5: a single unparseable file among the matched files does not abort the
batch: the run returns a result after visiting every matched file, reports
exactly one error, and every one of the other N−1 files is processed to a
success or a skip. -/
theorem C5_singleBadFile (fs : FS) (src tgt : String) (us : Nat → Nat)
    (hbad : ((matchedFiles fs src).filter fun n => isBadJson fs n).length = 1)
    (hrest : ∀ n ∈ matchedFiles fs src,
      isBadJson fs n = false → okName fs src tgt n = true) :
    ∃ r fs', process_profiles fs src tgt us = .ok (r, fs') ∧
      r.errors = 1 ∧
      r.success + r.skipped = (matchedFiles fs src).length - 1 := by
  have hne : (matchedFiles fs src).isEmpty = false := by
    cases hmf : matchedFiles fs src with
    | nil => rw [hmf] at hbad; simp at hbad
    | cons a l => rfl
  obtain ⟨-, hcnt, herrs, -⟩ :=
    runBatch_spec src tgt us fs (matchedFiles fs src)
      { res := ⟨0, 0, 0⟩, fs := fs, uuidIdx := 0 }
      ⟨[], by simp⟩ (fun m hm => mem_matchedFiles fs src m hm)
  have hfeq1 : (matchedFiles fs src).filter (okName fs src tgt)
      = (matchedFiles fs src).filter fun n => !(isBadJson fs n) := by
    apply List.filter_congr
    intro n hn
    have hfex := mem_matchedFiles fs src n hn
    cases hc : fsGet fs n with
    | none =>
      unfold fsExists at hfex
      rw [hc] at hfex
      simp at hfex
    | some c =>
      cases c with
      | none => simp [okName, isBadJson, hc]
      | some d =>
        have hbj : isBadJson fs n = false := by simp [isBadJson, hc]
        have hok := hrest n hn hbj
        rw [hok, hbj]
        rfl
  have hfeq2 : ((matchedFiles fs src).filter fun n => !(okName fs src tgt n))
      = (matchedFiles fs src).filter fun n => isBadJson fs n := by
    apply List.filter_congr
    intro n hn
    have hfex := mem_matchedFiles fs src n hn
    cases hc : fsGet fs n with
    | none =>
      unfold fsExists at hfex
      rw [hc] at hfex
      simp at hfex
    | some c =>
      cases c with
      | none => simp [okName, isBadJson, hc]
      | some d =>
        have hbj : isBadJson fs n = false := by simp [isBadJson, hc]
        have hok := hrest n hn hbj
        rw [hok, hbj]
        rfl
  have hpp : process_profiles fs src tgt us
      = .ok ((runBatch src tgt us (matchedFiles fs src)
          { res := ⟨0, 0, 0⟩, fs := fs, uuidIdx := 0 }).res,
        (runBatch src tgt us (matchedFiles fs src)
          { res := ⟨0, 0, 0⟩, fs := fs, uuidIdx := 0 }).fs) := by
    simp [process_profiles, hne]
  refine ⟨_, _, hpp, ?_, ?_⟩
  · rw [herrs, hfeq2]
    simp [hbad]
  · have hpart := length_filter_add (fun n => isBadJson fs n) (matchedFiles fs src)
    rw [hcnt, hfeq1]
    simp only []
    omega

/-- C5 witness: three matched files, the middle one unparseable; one error,
the other two succeed. -/
theorem C5_witness :
    ∃ r fs', process_profiles fs5W "0.4" "0.8" usZero = .ok (r, fs') ∧
      r.errors = 1 ∧
      r.success + r.skipped = (matchedFiles fs5W "0.4").length - 1 :=
  C5_singleBadFile fs5W "0.4" "0.8" usZero (by decide) (by decide)

/-! Replacing "0.4" by "0.8" never leaves or creates an occurrence of "0.4",
so files written by one run are never matched by the next run's glob. -/

theorem data_mk (l : List Char) : (String.mk l).data = l := rfl

theorem leadsWith_O_elim (l : List Char) (h : leadsWith "0.4".data l = true) :
    ∃ r, l = '0' :: '.' :: '4' :: r := by
  obtain ⟨t, ht⟩ := (leadsWith_iff _ _).mp h
  exact ⟨t, by rw [ht]; rfl⟩

theorem pyRepGo_match (r : List Char) :
    pyRepGo "0.4".data "0.8".data ('0' :: '.' :: '4' :: r) 0
      = '0' :: '.' :: '8' :: pyRepGo "0.4".data "0.8".data r 0 := rfl

theorem pyRepGo_nomatch (c : Char) (r : List Char)
    (h : leadsWith "0.4".data (c :: r) = false) :
    pyRepGo "0.4".data "0.8".data (c :: r) 0
      = c :: pyRepGo "0.4".data "0.8".data r 0 := by
  have hne : ("0.4".data).isEmpty = false := rfl
  simp [pyRepGo, h, hne]

theorem leadsWith4_rep (r2 : List Char)
    (h : leadsWith ['4'] (pyRepGo "0.4".data "0.8".data r2 0) = true) :
    leadsWith ['4'] r2 = true := by
  cases r2 with
  | nil => cases h
  | cons c r3 =>
    by_cases hl : leadsWith "0.4".data (c :: r3) = true
    · obtain ⟨r4, hr4⟩ := leadsWith_O_elim _ hl
      rw [hr4, pyRepGo_match] at h
      simp [leadsWith] at h
    · rw [pyRepGo_nomatch c r3 (Bool.eq_false_iff.mpr hl)] at h
      simp only [leadsWith, Bool.and_eq_true, beq_iff_eq] at h ⊢
      exact ⟨h.1, trivial⟩

theorem leadsWithDot4_rep (r : List Char)
    (h : leadsWith ['.', '4'] (pyRepGo "0.4".data "0.8".data r 0) = true) :
    leadsWith ['.', '4'] r = true := by
  cases r with
  | nil => cases h
  | cons c r2 =>
    by_cases hl : leadsWith "0.4".data (c :: r2) = true
    · obtain ⟨r4, hr4⟩ := leadsWith_O_elim _ hl
      rw [hr4, pyRepGo_match] at h
      simp [leadsWith] at h
    · rw [pyRepGo_nomatch c r2 (Bool.eq_false_iff.mpr hl)] at h
      simp only [leadsWith, Bool.and_eq_true, beq_iff_eq] at h ⊢
      exact ⟨h.1, leadsWith4_rep r2 h.2⟩

theorem noSub04_aux : ∀ (k : Nat) (l : List Char), l.length ≤ k →
    hasSub "0.4".data (pyRepGo "0.4".data "0.8".data l 0) = false := by
  intro k
  induction k with
  | zero =>
    intro l hl
    have hnil : l = [] := List.eq_nil_of_length_eq_zero (Nat.le_zero.mp hl)
    rw [hnil]
    rfl
  | succ k ih =>
    intro l hl
    cases l with
    | nil => rfl
    | cons c r =>
      by_cases hlw : leadsWith "0.4".data (c :: r) = true
      · obtain ⟨r3, hr3⟩ := leadsWith_O_elim _ hlw
        rw [hr3, pyRepGo_match]
        have hx : hasSub "0.4".data (pyRepGo "0.4".data "0.8".data r3 0) = false := by
          apply ih
          have hlen : (c :: r).length = r3.length + 3 := by rw [hr3]; rfl
          rw [hlen] at hl
          omega
        have e1 : leadsWith "0.4".data
            ('0' :: '.' :: '8' :: pyRepGo "0.4".data "0.8".data r3 0) = false := rfl
        have e2 : leadsWith "0.4".data
            ('.' :: '8' :: pyRepGo "0.4".data "0.8".data r3 0) = false := rfl
        have e3 : leadsWith "0.4".data
            ('8' :: pyRepGo "0.4".data "0.8".data r3 0) = false := rfl
        simp only [hasSub, e1, e2, e3, hx, Bool.or_false, Bool.false_or]
      · rw [pyRepGo_nomatch c r (Bool.eq_false_iff.mpr hlw)]
        have hx : hasSub "0.4".data (pyRepGo "0.4".data "0.8".data r 0) = false := by
          apply ih
          simp only [List.length_cons] at hl
          omega
        have hlw2 : leadsWith "0.4".data
            (c :: pyRepGo "0.4".data "0.8".data r 0) = false := by
          cases hh : leadsWith "0.4".data (c :: pyRepGo "0.4".data "0.8".data r 0) with
          | false => rfl
          | true =>
            exfalso
            simp only [show ("0.4".data : List Char) = '0' :: '.' :: '4' :: [] from rfl,
              leadsWith, Bool.and_eq_true, beq_iff_eq] at hh
            have h4 : leadsWith ['.', '4'] r = true :=
              leadsWithDot4_rep r (by
                simp only [leadsWith, Bool.and_eq_true, beq_iff_eq]
                exact hh.2)
            apply hlw
            simp only [show ("0.4".data : List Char) = '0' :: '.' :: '4' :: [] from rfl,
              leadsWith, Bool.and_eq_true, beq_iff_eq]
            constructor
            · exact hh.1
            · simpa only [leadsWith, Bool.and_eq_true, beq_iff_eq] using h4
        simp only [hasSub, hlw2, hx, Bool.or_false, Bool.false_or]

theorem noSub04 (l : List Char) :
    hasSub "0.4".data (pyRepGo "0.4".data "0.8".data l 0) = false :=
  noSub04_aux l.length l (Nat.le_refl _)

theorem rep04_nomatch (n : String) :
    hasSub "0.4".data (pyReplaceS n "0.4" "0.8").data = false := by
  rw [show pyReplaceS n "0.4" "0.8"
      = String.mk (pyRepGo "0.4".data "0.8".data n.data 0) from rfl, data_mk]
  exact noSub04 n.data

theorem globMatch_rep04 (n : String) :
    globMatchSize "0.4".data (pyReplaceS n "0.4" "0.8").data = false := by
  have h1 := rep04_nomatch n
  have h2 : hasSub "0.4".data ((pyReplaceS n "0.4" "0.8").data.take
      ((pyReplaceS n "0.4" "0.8").data.length - 5)) = false := by
    cases hh : hasSub "0.4".data ((pyReplaceS n "0.4" "0.8").data.take
        ((pyReplaceS n "0.4" "0.8").data.length - 5)) with
    | false => rfl
    | true =>
      have := hasSub_take _ _ _ hh
      rw [h1] at this
      cases this
  unfold globMatchSize
  rw [h2, Bool.and_false]

/-- C1 counterexample: in a directory that already contains one conversion
target (`a0.8.json`) next to two convertible files, the first run yields
`success = 1, skipped = 1`; the second run skips both matched files
(`skipped = 2`), so the second run's `skipped` equals `success + skipped` of
the first run, not its `success` alone as claimed. -/
theorem C1_counterexample :
    process_profiles fsC "0.4" "0.8" usZero = .ok (⟨1, 1, 0⟩, fs1C) ∧
    process_profiles fs1C "0.4" "0.8" usZero = .ok (⟨0, 2, 0⟩, fs1C) ∧
    (2 : Nat) ≠ (1 : Nat) :=
  ⟨rfl, rfl, by decide⟩

/-- C1 amended: `process_profiles` never overwrites: every file of the input
directory is unchanged in the output directory.  Consequently a second run
over the result writes nothing (it returns the directory unchanged), has
`success = 0`, and skips exactly `success + skipped` of the first run (every
matched file that parses and transforms — including the ones the first run
already skipped — now finds its target present). -/
theorem C1_amended (fs : FS) (us1 us2 : Nat → Nat) (r1 : ConversionResult) (fs1 : FS)
    (h1 : process_profiles fs "0.4" "0.8" us1 = .ok (r1, fs1)) :
    (∀ n, fsExists fs n = true → fsGet fs1 n = fsGet fs n) ∧
    ∃ r2, process_profiles fs1 "0.4" "0.8" us2 = .ok (r2, fs1) ∧
      r2.success = 0 ∧ r2.skipped = r1.success + r1.skipped := by
  have hne : (matchedFiles fs "0.4").isEmpty = false := by
    cases hmf : matchedFiles fs "0.4" with
    | nil => simp [process_profiles, hmf] at h1
    | cons a l => rfl
  have hpp : process_profiles fs "0.4" "0.8" us1
      = .ok ((runBatch "0.4" "0.8" us1 (matchedFiles fs "0.4")
          { res := ⟨0, 0, 0⟩, fs := fs, uuidIdx := 0 }).res,
        (runBatch "0.4" "0.8" us1 (matchedFiles fs "0.4")
          { res := ⟨0, 0, 0⟩, fs := fs, uuidIdx := 0 }).fs) := by
    simp [process_profiles, hne]
  rw [hpp] at h1
  have h1' := (Except.ok.injEq _ _).mp h1
  have hr1 : (runBatch "0.4" "0.8" us1 (matchedFiles fs "0.4")
      { res := ⟨0, 0, 0⟩, fs := fs, uuidIdx := 0 }).res = r1 :=
    congrArg Prod.fst h1'
  have hfs1 : (runBatch "0.4" "0.8" us1 (matchedFiles fs "0.4")
      { res := ⟨0, 0, 0⟩, fs := fs, uuidIdx := 0 }).fs = fs1 :=
    congrArg Prod.snd h1'
  obtain ⟨⟨ext, hfs, hextP⟩, hcnt, herrs, htgt⟩ :=
    runBatch_spec "0.4" "0.8" us1 fs (matchedFiles fs "0.4")
      { res := ⟨0, 0, 0⟩, fs := fs, uuidIdx := 0 }
      ⟨[], by simp⟩ (fun m hm => mem_matchedFiles fs "0.4" m hm)
  have hfsE : fs1 = fs ++ ext := by
    rw [← hfs1, hfs]
  constructor
  · intro n hn
    rw [hfsE]
    exact fsGet_append_left fs n hn ext
  · have hmfext : matchedFiles ext "0.4" = [] := by
      unfold matchedFiles
      rw [List.filter_eq_nil_iff.mpr ?_]
      · rfl
      · intro p hp hg
        obtain ⟨m, _, hpeq⟩ := hextP p hp
        rw [hpeq, globMatch_rep04 m] at hg
        cases hg
    have hmf2 : matchedFiles fs1 "0.4" = matchedFiles fs "0.4" := by
      rw [hfsE, matchedFiles_append, hmfext, List.append_nil]
    have hne2 : (matchedFiles fs1 "0.4").isEmpty = false := by
      rw [hmf2]
      exact hne
    have hokeq : ∀ m ∈ matchedFiles fs "0.4",
        okName fs1 "0.4" "0.8" m = okName fs "0.4" "0.8" m := by
      intro m hm
      rw [hfsE]
      exact okName_append fs ext "0.4" "0.8" m (mem_matchedFiles fs "0.4" m hm)
    have htg2 : ∀ m ∈ matchedFiles fs1 "0.4",
        okName fs1 "0.4" "0.8" m = true →
          fsExists fs1 (pyReplaceS m "0.4" "0.8") = true := by
      intro m hm hok
      rw [hmf2] at hm
      rw [hokeq m hm] at hok
      have hres := htgt m hm hok
      rw [hfs1] at hres
      exact hres
    obtain ⟨g1, g2, g3, g4⟩ :=
      runBatch_allSkip "0.4" "0.8" us2 fs1 (matchedFiles fs1 "0.4")
        { res := ⟨0, 0, 0⟩, fs := fs1, uuidIdx := 0 } rfl htg2
    have hpp2 : process_profiles fs1 "0.4" "0.8" us2
        = .ok ((runBatch "0.4" "0.8" us2 (matchedFiles fs1 "0.4")
            { res := ⟨0, 0, 0⟩, fs := fs1, uuidIdx := 0 }).res,
          (runBatch "0.4" "0.8" us2 (matchedFiles fs1 "0.4")
            { res := ⟨0, 0, 0⟩, fs := fs1, uuidIdx := 0 }).fs) := by
      simp [process_profiles, hne2]
    refine ⟨(runBatch "0.4" "0.8" us2 (matchedFiles fs1 "0.4")
        { res := ⟨0, 0, 0⟩, fs := fs1, uuidIdx := 0 }).res, ?_, ?_, ?_⟩
    · rw [hpp2, g1]
    · exact g2
    · rw [g3, hmf2, List.filter_congr hokeq]
      simp only [← hr1]
      simp at hcnt ⊢
      omega

/-- C1 witness: instantiation at the concrete three-file directory. -/
theorem C1_witness :
    (∀ n, fsExists fsC n = true → fsGet fs1C n = fsGet fsC n) ∧
    ∃ r2, process_profiles fs1C "0.4" "0.8" usZero = .ok (r2, fs1C) ∧
      r2.success = 0 ∧ r2.skipped = 1 + 1 :=
  C1_amended fsC usZero usZero ⟨1, 1, 0⟩ fs1C rfl

/-! Helper lemmas: the numeric key order. -/

theorem fracLt_iff_ratCast (p q : Nat × Nat) :
    fracLt p q = true ↔ (p.1 : ℚ) / 10 ^ p.2 < (q.1 : ℚ) / 10 ^ q.2 := by
  unfold fracLt
  rw [decide_eq_true_eq, div_lt_div_iff (by positivity) (by positivity)]
  constructor
  · intro h
    exact_mod_cast h
  · intro h
    exact_mod_cast h

theorem fracEq_of_not_lt (x y : Nat × Nat) (h1 : fracLt x y = false)
    (h2 : fracLt y x = false) :
    (x.1 : ℚ) / 10 ^ x.2 = (y.1 : ℚ) / 10 ^ y.2 := by
  have n1 : ¬ ((x.1 : ℚ) / 10 ^ x.2 < (y.1 : ℚ) / 10 ^ y.2) := by
    rw [← fracLt_iff_ratCast, h1]
    exact Bool.false_ne_true
  have n2 : ¬ ((y.1 : ℚ) / 10 ^ y.2 < (x.1 : ℚ) / 10 ^ x.2) := by
    rw [← fracLt_iff_ratCast, h2]
    exact Bool.false_ne_true
  exact le_antisymm (not_lt.mp n2) (not_lt.mp n1)

theorem lexLeK_total : ∀ a b, lexLeK a b = true ∨ lexLeK b a = true := by
  intro a
  induction a with
  | nil => intro b; exact Or.inl rfl
  | cons x xs ih =>
    intro b
    cases b with
    | nil => exact Or.inr rfl
    | cons y ys =>
      by_cases h1 : fracLt x y = true
      · exact Or.inl (by simp [lexLeK, h1])
      · by_cases h2 : fracLt y x = true
        · exact Or.inr (by simp [lexLeK, h2])
        · have h1' := Bool.eq_false_iff.mpr h1
          have h2' := Bool.eq_false_iff.mpr h2
          rcases ih ys with h | h
          · exact Or.inl (by simp [lexLeK, h1', h2', h])
          · exact Or.inr (by simp [lexLeK, h1', h2', h])

theorem lexLeK_trans : ∀ a b c, lexLeK a b = true → lexLeK b c = true →
    lexLeK a c = true := by
  intro a
  induction a with
  | nil => intro b c _ _; rfl
  | cons x xs ih =>
    intro b c hab hbc
    cases b with
    | nil => simp [lexLeK] at hab
    | cons y ys =>
      cases c with
      | nil => simp [lexLeK] at hbc
      | cons z zs =>
        by_cases hxy : fracLt x y = true
        · by_cases hyz : fracLt y z = true
          · have hxz : fracLt x z = true := by
              rw [fracLt_iff_ratCast] at hxy hyz ⊢
              exact lt_trans hxy hyz
            simp [lexLeK, hxz]
          · by_cases hzy : fracLt z y = true
            · simp [lexLeK, Bool.eq_false_iff.mpr hyz, hzy] at hbc
            · have heq := fracEq_of_not_lt y z (Bool.eq_false_iff.mpr hyz)
                (Bool.eq_false_iff.mpr hzy)
              have hxz : fracLt x z = true := by
                rw [fracLt_iff_ratCast] at hxy ⊢
                rw [← heq]
                exact hxy
              simp [lexLeK, hxz]
        · by_cases hyx : fracLt y x = true
          · simp [lexLeK, Bool.eq_false_iff.mpr hxy, hyx] at hab
          · have heq1 := fracEq_of_not_lt x y (Bool.eq_false_iff.mpr hxy)
              (Bool.eq_false_iff.mpr hyx)
            have hab' : lexLeK xs ys = true := by
              simpa [lexLeK, Bool.eq_false_iff.mpr hxy, Bool.eq_false_iff.mpr hyx]
                using hab
            by_cases hyz : fracLt y z = true
            · have hxz : fracLt x z = true := by
                rw [fracLt_iff_ratCast] at hyz ⊢
                rw [heq1]
                exact hyz
              simp [lexLeK, hxz]
            · by_cases hzy : fracLt z y = true
              · simp [lexLeK, Bool.eq_false_iff.mpr hyz, hzy] at hbc
              · have heq2 := fracEq_of_not_lt y z (Bool.eq_false_iff.mpr hyz)
                  (Bool.eq_false_iff.mpr hzy)
                have hbc' : lexLeK ys zs = true := by
                  simpa [lexLeK, Bool.eq_false_iff.mpr hyz, Bool.eq_false_iff.mpr hzy]
                    using hbc
                have hxz1 : fracLt x z = false := by
                  cases hh : fracLt x z with
                  | false => rfl
                  | true =>
                    rw [fracLt_iff_ratCast] at hh
                    rw [heq1, heq2] at hh
                    exact absurd hh (lt_irrefl _)
                have hzx1 : fracLt z x = false := by
                  cases hh : fracLt z x with
                  | false => rfl
                  | true =>
                    rw [fracLt_iff_ratCast] at hh
                    rw [heq1, heq2] at hh
                    exact absurd hh (lt_irrefl _)
                simpa [lexLeK, hxz1, hzx1] using ih ys zs hab' hbc'

theorem labelLe_total (a b : String) : labelLe a b = true ∨ labelLe b a = true :=
  lexLeK_total _ _

theorem labelLe_trans (a b c : String) (h1 : labelLe a b = true)
    (h2 : labelLe b c = true) : labelLe a c = true :=
  lexLeK_trans _ _ _ h1 h2

/-! Helper lemmas: stable insertion sort produces a sorted list. -/

theorem insLe_mem (le : String → String → Bool) (a : String) :
    ∀ (l : List String) (x : String), x ∈ insLe le a l → x = a ∨ x ∈ l := by
  intro l
  induction l with
  | nil =>
    intro x hx
    rcases List.mem_singleton.mp hx with h
    exact Or.inl h
  | cons b r ih =>
    intro x hx
    by_cases hab : le a b = true
    · simp only [insLe, hab, if_true] at hx
      rcases List.mem_cons.mp hx with h1 | h1
      · exact Or.inl h1
      · exact Or.inr h1
    · simp only [insLe, hab, if_false] at hx
      rcases List.mem_cons.mp hx with h1 | h1
      · exact Or.inr (by rw [h1]; exact List.mem_cons_self b r)
      · rcases ih x h1 with h2 | h2
        · exact Or.inl h2
        · exact Or.inr (List.mem_cons_of_mem _ h2)

theorem insLe_pairwise (le : String → String → Bool)
    (htot : ∀ x y, le x y = true ∨ le y x = true)
    (htrans : ∀ x y z, le x y = true → le y z = true → le x z = true)
    (a : String) :
    ∀ l : List String, l.Pairwise (fun x y => le x y = true) →
      (insLe le a l).Pairwise (fun x y => le x y = true) := by
  intro l
  induction l with
  | nil => intro _; simp [insLe]
  | cons b r ih =>
    intro h
    rcases List.pairwise_cons.mp h with ⟨hb, hr⟩
    by_cases hab : le a b = true
    · simp only [insLe, hab, if_true]
      refine List.pairwise_cons.mpr ⟨?_, h⟩
      intro x hx
      rcases List.mem_cons.mp hx with h1 | h1
      · rw [h1]
        exact hab
      · exact htrans a b x hab (hb x h1)
    · simp only [insLe, hab, if_false]
      refine List.pairwise_cons.mpr ⟨?_, ih hr⟩
      intro x hx
      rcases insLe_mem le a r x hx with h1 | h1
      · rw [h1]
        rcases htot a b with h2 | h2
        · exact absurd h2 hab
        · exact h2
      · exact hb x h1

theorem insSort_pairwise (le : String → String → Bool)
    (htot : ∀ x y, le x y = true ∨ le y x = true)
    (htrans : ∀ x y z, le x y = true → le y z = true → le x z = true) :
    ∀ l : List String, (insSort le l).Pairwise (fun x y => le x y = true) := by
  intro l
  induction l with
  | nil => simp [insSort]
  | cons a r ih => exact insLe_pairwise le htot htrans a _ ih

/-! Helper lemmas: the grouping pipeline. -/

theorem mapE_ok_mem (f : α → Except PyError β) :
    ∀ (l : List α) (out : List β), mapE f l = .ok out →
      ∀ y ∈ out, ∃ x ∈ l, f x = .ok y := by
  intro l
  induction l with
  | nil =>
    intro out h y hy
    injection h with h
    rw [← h] at hy
    cases hy
  | cons a r ih =>
    intro out h y hy
    simp only [mapE] at h
    cases hfa : f a with
    | error e => rw [hfa] at h; cases h
    | ok b =>
      rw [hfa] at h
      cases hmr : mapE f r with
      | error e => rw [hmr] at h; cases h
      | ok bs =>
        rw [hmr] at h
        injection h with h
        rw [← h] at hy
        rcases List.mem_cons.mp hy with h1 | h1
        · exact ⟨a, List.mem_cons_self a r, by rw [hfa, h1]⟩
        · obtain ⟨x, hx, hfx⟩ := ih bs hmr y h1
          exact ⟨x, List.mem_cons_of_mem _ hx, hfx⟩

theorem sortGroups_mem (g gs : List (String × List String))
    (h : sortGroups g = .ok gs) :
    ∀ e ∈ gs, ∃ kv ∈ g, e = (kv.1, insSort labelLe kv.2) := by
  intro e he
  obtain ⟨kv, hkv, hf⟩ := mapE_ok_mem _ g gs h e he
  have hf' : (match mapO sortKeyF kv.2 with
      | none => (.error .valueError : Except PyError (String × List String))
      | some _ => .ok (kv.1, insSort labelLe kv.2)) = .ok e := hf
  cases hmo : mapO sortKeyF kv.2 with
  | none => rw [hmo] at hf'; cases hf'
  | some ks =>
    rw [hmo] at hf'
    injection hf' with hf'
    exact ⟨kv, hkv, hf'.symm⟩

/-! Claims about the profile scanner. -/

/-- C6: the variant sort is by the sequence of numeric tokens of each label,
interpreted as numeric values (`fracLt_iff_ratCast` identifies the
comparison with the order on the rational values of the tokens), compared
lexicographically: (1) the concrete directory with variants
`1 mm, 0.4 mm, 0.8 mm` sorts to `0.4 mm, 0.8 mm, 1 mm`; (2) every group
produced by `get_profile_groups` is sorted under the key order `labelLe`;
(3) a label with no numeric tokens (key `[]`) sorts no later than any label,
and strictly before any numeric-bearing label. -/
theorem C6_sorting :
    (get_profile_groups (some [("M@1 mm.json", some []), ("M@0.4 mm.json", some []),
        ("M@0.8 mm.json", some [])])
      = .ok [("M", ["0.4 mm", "0.8 mm", "1 mm"])]) ∧
    (∀ dOpt gs, get_profile_groups dOpt = .ok gs →
      ∀ m vs, (m, vs) ∈ gs → vs.Pairwise fun a b => labelLe a b = true) ∧
    (∀ x y, sortKeyF x = some [] → ∀ q qs, sortKeyF y = some (q :: qs) →
      labelLe x y = true ∧ labelLe y x = false) := by
  refine ⟨rfl, ?_, ?_⟩
  · intro dOpt gs h m vs hmem
    have hsg : ∃ g, sortGroups g = .ok gs := by
      cases dOpt with
      | none => exact ⟨buildGroups [], h⟩
      | some fs => exact ⟨_, h⟩
    obtain ⟨g, hg⟩ := hsg
    obtain ⟨kv, -, hkv⟩ := sortGroups_mem g gs hg (m, vs) hmem
    have hvs : vs = insSort labelLe kv.2 := congrArg Prod.snd hkv
    rw [hvs]
    exact insSort_pairwise labelLe labelLe_total labelLe_trans kv.2
  · intro x y hx q qs hy
    constructor
    · simp [labelLe, hx, lexLeK]
    · simp [labelLe, hx, hy, lexLeK]

/-- C6 witness: the sortedness clause at the concrete directory and the
no-numeric-token clause at `"mm"` vs `"1 mm"`. -/
theorem C6_witness :
    (["0.4 mm", "0.8 mm", "1 mm"] : List String).Pairwise
      (fun a b => labelLe a b = true) ∧
    (labelLe "mm" "1 mm" = true ∧ labelLe "1 mm" "mm" = false) :=
  ⟨C6_sorting.2.1
      (some [("M@1 mm.json", some []), ("M@0.4 mm.json", some []),
        ("M@0.8 mm.json", some [])])
      [("M", ["0.4 mm", "0.8 mm", "1 mm"])] C6_sorting.1
      "M" ["0.4 mm", "0.8 mm", "1 mm"] (by decide),
    C6_sorting.2.2 "mm" "1 mm" rfl (1, 0) [] rfl⟩

/-! Claims about filename decomposition. -/

theorem pySplitOnChar_no_sep (sep : Char) :
    ∀ a : List Char, sep ∉ a → pySplitOnChar sep a = [a] := by
  intro a
  induction a with
  | nil => intro _; rfl
  | cons c r ih =>
    intro h
    rw [List.mem_cons, not_or] at h
    have hc : ¬ (c = sep) := fun hh => h.1 hh.symm
    simp only [pySplitOnChar, hc, if_false, ih h.2]

theorem pySplitOnChar_sep_append (sep : Char) :
    ∀ a r : List Char, sep ∉ a →
      pySplitOnChar sep (a ++ sep :: r) = a :: pySplitOnChar sep r := by
  intro a
  induction a with
  | nil => intro r _; simp [pySplitOnChar]
  | cons c a' ih =>
    intro r h
    rw [List.mem_cons, not_or] at h
    have hc : ¬ (c = sep) := fun hh => h.1 hh.symm
    simp only [List.cons_append, pySplitOnChar, hc, if_false, List.append_eq]
    rw [ih r h.2]

/-- C7 counterexample: the stem `A@B@C` yields variant `B`, not `B@C` as the
claim states, because `split('@')` splits at every separator and line 105
takes `parts[1]` only. -/
theorem C7_counterexample :
    get_profile_groups (some [("A@B@C.json", some [])]) = .ok [("A", ["B"])] ∧
    ("B" : String) ≠ "B@C" :=
  ⟨rfl, by decide⟩

theorem pySplitOnChar_joinSep (sep : Char) :
    ∀ (ss : List (List Char)) (a : List Char), sep ∉ a → (∀ s ∈ ss, sep ∉ s) →
      pySplitOnChar sep (joinSep sep (a :: ss)) = a :: ss := by
  intro ss
  induction ss with
  | nil =>
    intro a ha _
    exact pySplitOnChar_no_sep sep a ha
  | cons b r ih =>
    intro a ha hs
    rw [show joinSep sep (a :: b :: r) = a ++ sep :: joinSep sep (b :: r) from rfl,
      pySplitOnChar_sep_append sep a _ ha,
      ih b (hs b (List.mem_cons_self b r)) (fun s hsm => hs s (List.mem_cons_of_mem _ hsm))]

/-- C7 amended: every stem is uniquely a join of `'@'`-free segments; the
stem is split at every `'@'`, the material-base key is the first segment
stripped of whitespace, and — as soon as at least one separator is present,
whatever the number of further separators — the variant label is the second
segment stripped (for `A@B@C` the variant is `B`); with no separator the
variant is the fixed token `default`. -/
theorem C7_amended :
    (∀ (a b : List Char) (rest : List (List Char)), '@' ∉ a → '@' ∉ b →
      (∀ s ∈ rest, '@' ∉ s) →
      decomposeStem ⟨joinSep '@' (a :: b :: rest)⟩ = (pyStrip ⟨a⟩, pyStrip ⟨b⟩)) ∧
    (∀ a : List Char, '@' ∉ a →
      decomposeStem ⟨a⟩ = (pyStrip ⟨a⟩, "default")) := by
  constructor
  · intro a b rest ha hb hrest
    have hs : ∀ s ∈ b :: rest, '@' ∉ s := by
      intro s hsm
      rcases List.mem_cons.mp hsm with h1 | h1
      · rw [h1]; exact hb
      · exact hrest s h1
    unfold decomposeStem
    rw [data_mk, pySplitOnChar_joinSep '@' (b :: rest) a ha hs]
    rfl
  · intro a ha
    unfold decomposeStem
    rw [data_mk, pySplitOnChar_no_sep '@' a ha]
    rfl

/-- C7 witness: instantiation at the canonical single-separator stem
`PLA@0.4`, at the two-separator stem `A@B@C`, and at a separator-free
stem. -/
theorem C7_witness :
    decomposeStem "PLA@0.4" = ("PLA", "0.4") ∧
    decomposeStem "A@B@C" = ("A", "B") ∧
    decomposeStem "AB" = ("AB", "default") :=
  ⟨C7_amended.1 "PLA".data "0.4".data [] (by decide) (by decide)
      (fun s hs => absurd hs (List.not_mem_nil s)),
   C7_amended.1 ['A'] ['B'] [['C']] (by decide) (by decide) (by decide),
   C7_amended.2 "AB".data (by decide)⟩

/-! Claims about the missing-directory behaviour. -/

/-- C8 counterexample: on a non-existent directory `get_profile_groups`
returns the empty grouping — `pathlib`'s `glob` yields nothing and raises
nothing, so no `DirectoryNotFound`-kind failure is signalled. -/
theorem C8_counterexample : get_profile_groups none = .ok [] := rfl

/-- C8 amended: `get_profile_groups` swallows a missing directory and
returns an empty grouping; the `DirectoryNotFound`-kind failure
(`NozzleConversionError` "Directory not found") is raised instead by
`find_user_profiles` when its base directory is absent. -/
theorem C8_amended :
    get_profile_groups none = .ok [] ∧
    find_user_profiles "OrcaSlicer/user" none
      = .error (.nozzle ("❌ Directory not found: " ++ "OrcaSlicer/user")) :=
  ⟨rfl, rfl⟩

/-! Claim about the sort key's domain. -/

/-- C9: the sort key is not total: the token `1.2.3` passes the
dot-stripping digit test (all dots removed leaves digits), yet `float`
fails on it (two dots), so `get_profile_groups` raises (`ValueError`)
instead of returning a grouping for a directory containing
`M@1.2.3 mm.json`. -/
theorem C9_sortKeyRaises :
    pyIsdigit ("1.2.3".data.filter fun ch => ch ≠ '.') = true ∧
    pyFloatFrac "1.2.3".data = none ∧
    get_profile_groups (some [("M@1.2.3 mm.json", some [])]) = .error .valueError :=
  ⟨rfl, rfl, rfl⟩

end Orca
